import Mathlib

/-!
Verification of the em-ray-tracing core: a shallow embedding, over exact
rational arithmetic, of the SAH k-d tree build and traversal
(src/Engine/KdTreeAcc.cpp), the ray launcher and field kernels, and the
session read-out surface.  Machine doubles are modelled as rationals;
transcendental library calls (cos, sin, sqrt, acos, log10, pow) are
modelled by an explicit oracle record so every definition stays
computable.
-/

namespace EmRt

/-- Three rational components; models both `Vector` and `Point`
(three double-precision components, per the spec data model). -/
structure Vec3 where
  x : ℚ
  y : ℚ
  z : ℚ
deriving DecidableEq, Repr

namespace Vec3

/-- Index-by-axis (0 = x, 1 = y, 2 = z), modelling `operator[]`. -/
def get (v : Vec3) (a : Nat) : ℚ :=
  if a = 0 then v.x else if a = 1 then v.y else v.z

/-- Functional update of the component selected by an axis index. -/
def set (v : Vec3) (a : Nat) (q : ℚ) : Vec3 :=
  if a = 0 then { v with x := q }
  else if a = 1 then { v with y := q }
  else { v with z := q }

/-- Componentwise subtraction: the vector from `p` to `q`,
modelling `Vector(Point from, Point to)`. -/
def sub (q p : Vec3) : Vec3 := ⟨q.x - p.x, q.y - p.y, q.z - p.z⟩

/-- Componentwise addition. -/
def add (p q : Vec3) : Vec3 := ⟨p.x + q.x, p.y + q.y, p.z + q.z⟩

/-- Scalar multiple. -/
def smul (c : ℚ) (v : Vec3) : Vec3 := ⟨c * v.x, c * v.y, c * v.z⟩

/-- Dot product. -/
def dot (v w : Vec3) : ℚ := v.x * w.x + v.y * w.y + v.z * w.z

/-- Cross product. -/
def cross (v w : Vec3) : Vec3 :=
  ⟨v.y * w.z - v.z * w.y, v.z * w.x - v.x * w.z, v.x * w.y - v.y * w.x⟩

end Vec3

/-- Axis-aligned box given by its two corner points (`KdNode::min/max`). -/
structure Box where
  Bmin : Vec3
  Bmax : Vec3
deriving DecidableEq, Repr

/- ===================== SAH split (KdTreeAcc::splitSAH) ===================== -/

/-- Geometry variant for the k-d build: a triangle (three vertices and an
outward normal) or a receiver sphere (center, radius, receiver index). -/
inductive Geom where
  | tri (a b c : Vec3) (n : Vec3)
  | sph (center : Vec3) (radius : ℚ) (index : Nat)
deriving DecidableEq, Repr

/-- Modelled from the spec: `getBoundingBox` (Triangle.cpp / Sphere.cpp are
not under src/).  Triangle: componentwise min/max of the vertices;
sphere: center plus/minus radius in each axis. -/
def Geom.bbox : Geom → Box
  | .tri a b c _ =>
      ⟨⟨min a.x (min b.x c.x), min a.y (min b.y c.y), min a.z (min b.z c.z)⟩,
       ⟨max a.x (max b.x c.x), max a.y (max b.y c.y), max a.z (max b.z c.z)⟩⟩
  | .sph c r _ =>
      ⟨⟨c.x - r, c.y - r, c.z - r⟩, ⟨c.x + r, c.y + r, c.z + r⟩⟩

/-- Event type for the SAH sweep.  The numeric order `End < Planar < Start`
is the tie-break order the sorted sweep relies on (the enum declaration
lives in the header, which is not under src/; the order is the one the
spec states). -/
inductive EvType where
  | evEnd
  | evPlanar
  | evStart
deriving DecidableEq, Repr

/-- Integer value of the event type, as used by `cmpKdEvent`. -/
def EvType.idx : EvType → Nat
  | .evEnd => 0
  | .evPlanar => 1
  | .evStart => 2

/-- One sweep event (`KdTreeAcc::KdEvent`).  The geometry back-reference is
dropped: the sweep in `splitSAH` never reads it. -/
structure KdEvent where
  position : ℚ
  type : EvType
deriving DecidableEq, Repr

/-- `cmpKdEvent` as a non-strict order usable by insertion sort: sort by
position, ties broken by the numeric event-type order. -/
def evLE (a b : KdEvent) : Prop :=
  a.position < b.position ∨ (a.position = b.position ∧ a.type.idx ≤ b.type.idx)

instance : DecidableRel evLE := fun a b => by
  unfold evLE; infer_instance

/-- Events contributed by one geometry on one axis: a single `Planar` event
for a flat bounding box, otherwise a `Start` at the box minimum and an
`End` at the box maximum. -/
def eventsOf (axis : Nat) (g : Geom) : List KdEvent :=
  let bb := g.bbox
  if bb.Bmin.get axis = bb.Bmax.get axis then
    [⟨bb.Bmin.get axis, .evPlanar⟩]
  else
    [⟨bb.Bmin.get axis, .evStart⟩, ⟨bb.Bmax.get axis, .evEnd⟩]

/-- The sorted event list for one axis (`std::sort` with `cmpKdEvent`;
any sort agrees with insertion sort here because tied events are
indistinguishable to the sweep). -/
def sortedEvents (axis : Nat) (list : List Geom) : List KdEvent :=
  ((list.map (eventsOf axis)).flatten).insertionSort evLE

/-- One candidate split plane as evaluated by the sweep, together with the
values the source computes for it. -/
structure Cand where
  axis : Nat
  position : ℚ
  NL : ℤ
  NP : ℤ
  NR : ℤ
  SAL : ℚ
  SAR : ℚ
  SA : ℚ
  cost : ℚ
deriving DecidableEq, Repr

/-- The cost expression of the source
(`SAH = 1 + 1.5f * ((SAL / SA) * NL + SAR / SA * (NR + NP))`). -/
def costExpr (NL NP NR : ℤ) (SAL SAR SA : ℚ) : ℚ :=
  1 + 3/2 * ((SAL / SA) * (NL : ℚ) + SAR / SA * ((NR : ℚ) + (NP : ℚ)))

/-- Surface-area terms of `splitSAH` for a plane at `position` on `axis`
of the node box. -/
def saTerms (box : Box) (axis : Nat) (position : ℚ) : ℚ × ℚ × ℚ :=
  let nextAxis := (axis + 1) % 3
  let prevAxis := (axis + 2) % 3
  let boxSize := box.Bmax.sub box.Bmin
  let width := box.Bmax.get axis - box.Bmin.get axis
  let leftWidth := position - box.Bmin.get axis
  let rightWidth := box.Bmax.get axis - position
  let height := boxSize.get nextAxis
  let depth := boxSize.get prevAxis
  (leftWidth * height + leftWidth * depth + height * depth,
   rightWidth * height + rightWidth * depth + height * depth,
   width * height + width * depth + height * depth)

/-- One position group of the sorted event list: the position together with
the number of `End`, `Planar` and `Start` events there (the three inner
`while` loops of the sweep). -/
def groupCounts (run : List KdEvent) : ℚ × ℤ × ℤ × ℤ :=
  ((run.headD ⟨0, .evEnd⟩).position,
   (run.countP (fun e => e.type = .evEnd) : ℤ),
   (run.countP (fun e => e.type = .evPlanar) : ℤ),
   (run.countP (fun e => e.type = .evStart) : ℤ))

/-- One iteration of the sweep: at each position first
`NP := PP; NR := NR - PP - PE`, the cost is evaluated, then
`NL := NL + PS + PP` (and `NP` is reset on the next group). -/
def sweepStep (box : Box) (axis : Nat) (st : ℤ × ℤ × List Cand)
    (run : List KdEvent) : ℤ × ℤ × List Cand :=
  let (NL, NR, acc) := st
  let (position, PE, PP, PS) := groupCounts run
  let NP := PP
  let NR2 := NR - PP - PE
  let (SAL, SAR, SA) := saTerms box axis position
  let c : Cand :=
    ⟨axis, position, NL, NP, NR2, SAL, SAR, SA, costExpr NL NP NR2 SAL SAR SA⟩
  (NL + PS + PP, NR2, acc ++ [c])

/-- The sweep over one axis: fold over the groups of equal position,
producing the candidate evaluated at each unique position. -/
def sweepAxis (box : Box) (axis : Nat) (list : List Geom) : List Cand :=
  (((sortedEvents axis list).splitBy (fun a b => a.position = b.position)).foldl
    (sweepStep box axis) (0, (list.length : ℤ), [])).2.2

/-- All candidates evaluated by `splitSAH`, in evaluation order
(axis 0 first, then 1, then 2). -/
def sahCandidates (box : Box) (list : List Geom) : List Cand :=
  sweepAxis box 0 list ++ sweepAxis box 1 list ++ sweepAxis box 2 list

/-- Result of `splitSAH`: the returned plane position, the best axis and
the minimal cost (`minPosition`, `bestAxis`, `minSAH`). -/
structure SplitRes where
  position : ℚ
  axis : Nat
  sah : ℚ
deriving DecidableEq, Repr

/-- One update of the running minimum: replace on strict improvement
(`if (SAH < minSAH)`). -/
def minStep (best : Option SplitRes) (c : Cand) : Option SplitRes :=
  match best with
  | none => some ⟨c.position, c.axis, c.cost⟩
  | some b => if c.cost < b.sah then some ⟨c.position, c.axis, c.cost⟩ else some b

/-- The running minimum of the sweep (`minSAH` starts at `DBL_MAX` and is
replaced on strict improvement; `none` models the
no-candidate-was-evaluated case, in which the source leaves
`minPosition` uninitialised). -/
def selectMin (cs : List Cand) : Option SplitRes :=
  cs.foldl minStep none

/-- `KdTreeAcc::splitSAH`. -/
def splitSAH (box : Box) (list : List Geom) : Option SplitRes :=
  selectMin (sahCandidates box list)

/-- The cost formula exactly as the claim (and spec) words it:
planar geometries counted with the left term. -/
def specCostOf (c : Cand) : ℚ :=
  1 + 3/2 * ((c.SAL / c.SA) * ((c.NL : ℚ) + (c.NP : ℚ)) + (c.SAR / c.SA) * (c.NR : ℚ))

/-- The corrected cost formula: planar geometries counted with the right
term, `NR` excluding them. -/
def amendedCostOf (c : Cand) : ℚ :=
  1 + 3/2 * ((c.SAL / c.SA) * (c.NL : ℚ) + c.SAR / c.SA * ((c.NR : ℚ) + (c.NP : ℚ)))

lemma sweepStep_cost (box : Box) (axis : Nat) :
    ∀ st run, (∀ c ∈ st.2.2, c.cost = amendedCostOf c) →
      ∀ c ∈ (sweepStep box axis st run).2.2, c.cost = amendedCostOf c := by
  rintro ⟨NL, NR, acc⟩ run h c hc
  simp only [sweepStep, List.mem_append, List.mem_singleton] at hc
  rcases hc with hc | hc
  · exact h c hc
  · subst hc; rfl

lemma sweepAxis_cost (box : Box) (axis : Nat) (list : List Geom) :
    ∀ c ∈ sweepAxis box axis list, c.cost = amendedCostOf c := by
  have main : ∀ (runs : List (List KdEvent)) (st : ℤ × ℤ × List Cand),
      (∀ c ∈ st.2.2, c.cost = amendedCostOf c) →
      ∀ c ∈ (runs.foldl (sweepStep box axis) st).2.2, c.cost = amendedCostOf c := by
    intro runs
    induction runs with
    | nil => intro st h; exact h
    | cons run rest ih =>
        intro st h
        exact ih (sweepStep box axis st run) (sweepStep_cost box axis st run h)
  unfold sweepAxis
  exact main _ (0, (list.length : ℤ), []) (by intro c hc; simp at hc)

lemma minStep_spec (b : Option SplitRes) (c : Cand) :
    ∀ rb, minStep b c = some rb →
      rb.sah ≤ c.cost ∧ (∀ b0, b = some b0 → rb.sah ≤ b0.sah) ∧
      (b = some rb ∨ (rb.axis = c.axis ∧ rb.position = c.position ∧ rb.sah = c.cost)) := by
  intro rb h
  cases b with
  | none =>
      simp only [minStep] at h
      injection h with h
      subst h
      refine ⟨le_refl _, ?_, Or.inr ⟨rfl, rfl, rfl⟩⟩
      intro b0 hb
      exact absurd hb (by simp)
  | some b0 =>
      simp only [minStep] at h
      by_cases hlt : c.cost < b0.sah
      · rw [if_pos hlt] at h
        injection h with h
        subst h
        refine ⟨le_refl _, ?_, Or.inr ⟨rfl, rfl, rfl⟩⟩
        intro b1 hb
        injection hb with hb
        subst hb
        exact le_of_lt hlt
      · rw [if_neg hlt] at h
        injection h with h
        subst h
        refine ⟨le_of_not_lt hlt, ?_, Or.inl rfl⟩
        intro b1 hb
        injection hb with hb
        subst hb
        exact le_refl _

lemma foldl_minStep_spec (cs : List Cand) :
    ∀ b r, cs.foldl minStep b = some r →
      (∀ c ∈ cs, r.sah ≤ c.cost) ∧
      (∀ rb, b = some rb → r.sah ≤ rb.sah) ∧
      (b = some r ∨ ∃ c ∈ cs, c.axis = r.axis ∧ c.position = r.position ∧ c.cost = r.sah) := by
  induction cs with
  | nil =>
      intro b r h
      simp only [List.foldl_nil] at h
      subst h
      exact ⟨by simp, by intro rb hb; cases hb; exact le_refl _, Or.inl rfl⟩
  | cons c cs ih =>
      intro b r h
      simp only [List.foldl_cons] at h
      obtain ⟨h1, h2, h3⟩ := ih (minStep b c) r h
      have hsome : ∃ rb, minStep b c = some rb := by
        cases b with
        | none => exact ⟨_, rfl⟩
        | some b0 =>
            simp only [minStep]
            by_cases hlt : c.cost < b0.sah
            · rw [if_pos hlt]; exact ⟨_, rfl⟩
            · rw [if_neg hlt]; exact ⟨_, rfl⟩
      obtain ⟨rb, hrb⟩ := hsome
      obtain ⟨hm1, hm2, hm3⟩ := minStep_spec b c rb hrb
      refine ⟨?_, ?_, ?_⟩
      · intro c2 hc2
        rcases List.mem_cons.mp hc2 with hc2 | hc2
        · subst hc2; exact le_trans (h2 rb hrb) hm1
        · exact h1 c2 hc2
      · intro rb2 hb2
        exact le_trans (h2 rb hrb) (hm2 rb2 hb2)
      · rcases h3 with h3 | h3
        · obtain ⟨_, _, hm3r⟩ := minStep_spec b c r h3
          rcases hm3r with hm | hm
          · exact Or.inl hm
          · exact Or.inr ⟨c, List.mem_cons_self c cs, hm.1.symm, hm.2.1.symm, hm.2.2.symm⟩
        · obtain ⟨c2, hc2, hp⟩ := h3
          exact Or.inr ⟨c2, List.mem_cons_of_mem c hc2, hp⟩

/-- Concrete input for the C1 counterexample: one triangle planar at
`x = 1/2` and one triangle spanning `x ∈ [0, 2]`, in the box
`[0,2] × [0,1] × [0,1]`. -/
def c1List : List Geom :=
  [Geom.tri ⟨1/2, 0, 0⟩ ⟨1/2, 1, 0⟩ ⟨1/2, 0, 1⟩ ⟨1, 0, 0⟩,
   Geom.tri ⟨0, 0, 0⟩ ⟨2, 1, 0⟩ ⟨0, 0, 1⟩ ⟨0, 0, 1⟩]

/-- Node box for the C1 counterexample. -/
def c1Box : Box := ⟨⟨0, 0, 0⟩, ⟨2, 1, 1⟩⟩

unseal Rat.add Rat.sub Rat.mul Rat.inv in
/-- C1 counterexample: at the candidate plane `x = 1/2` of `c1Box`/`c1List`
the cost computed by `splitSAH` is `4`, while the formula of the claim —
`KT + KI*((SAL/SA)*(NL + NP) + (SAR/SA)*NR)`, on-plane geometries counted
with the left term — gives `17/5`.  The claim that every evaluated
candidate's cost equals that formula is therefore false. -/
theorem C1_cex_planar_counted_right :
    ¬ ∀ c ∈ sahCandidates c1Box c1List, c.cost = specCostOf c := by
  decide

/-- C1 (amended): for every node box and geometry list, every candidate
split plane evaluated during the sweep has cost
`KT + KI*((SAL/SA)*NL + (SAR/SA)*(NR + NP))` with `KT = 1`, `KI = 1.5` —
the `NP` on-plane geometries are counted with the *right* term
`(NR + NP)` while `NL` excludes them — and the `(axis, position)`
returned by `splitSAH` attains the minimum of this cost over all axes
and candidate positions. -/
theorem C1_splitSAH_cost_and_min (box : Box) (list : List Geom) :
    (∀ c ∈ sahCandidates box list, c.cost = amendedCostOf c) ∧
    ∀ res, splitSAH box list = some res →
      (∃ c ∈ sahCandidates box list,
          c.axis = res.axis ∧ c.position = res.position ∧ c.cost = res.sah) ∧
      ∀ c ∈ sahCandidates box list, res.sah ≤ c.cost := by
  constructor
  · intro c hc
    unfold sahCandidates at hc
    rcases List.mem_append.mp hc with hc | hc
    · rcases List.mem_append.mp hc with hc | hc
      · exact sweepAxis_cost box 0 list c hc
      · exact sweepAxis_cost box 1 list c hc
    · exact sweepAxis_cost box 2 list c hc
  · intro res h
    obtain ⟨h1, _, h3⟩ := foldl_minStep_spec (sahCandidates box list) none res h
    rcases h3 with h3 | h3
    · cases h3
    · obtain ⟨c, hc, hax, hpos, hcost⟩ := h3
      exact ⟨⟨c, hc, hax, hpos, hcost⟩, h1⟩

unseal Rat.add Rat.sub Rat.mul Rat.inv in
/-- Witness for `C1_splitSAH_cost_and_min`: on the concrete
`c1Box`/`c1List` input, `splitSAH` returns the plane `x = 0` with cost
`4`, and that cost is minimal over all evaluated candidates. -/
theorem C1_splitSAH_cost_and_min_witness :
    (∃ c ∈ sahCandidates c1Box c1List,
        c.axis = 0 ∧ c.position = 0 ∧ c.cost = 4) ∧
    ∀ c ∈ sahCandidates c1Box c1List, (4 : ℚ) ≤ c.cost :=
  (C1_splitSAH_cost_and_min c1Box c1List).2 ⟨0, 0, 4⟩ (by decide)

/- ===================== k-d tree build (KdTreeAcc::buildKdTree) ===================== -/

/-- A built k-d node: every node keeps its bounding box (`KdNode::min/max`);
an internal node carries the split axis and plane and owns two children,
a leaf holds its geometry list. -/
inductive KdTree where
  | leaf (box : Box) (items : List Geom)
  | node (box : Box) (axis : Nat) (split : ℚ) (left right : KdTree)
deriving Repr

/-- `node->left` box: the parent box with `max[axis] = median`. -/
def leftClip (box : Box) (axis : Nat) (median : ℚ) : Box :=
  ⟨box.Bmin, box.Bmax.set axis median⟩

/-- `node->right` box: the parent box with `min[axis] = median`. -/
def rightClip (box : Box) (axis : Nat) (median : ℚ) : Box :=
  ⟨box.Bmin.set axis median, box.Bmax⟩

/-- Distribution rule for the left child: a triangle goes left when any
vertex coordinate is `< median`; a sphere when `center - r < median`. -/
def goesLeft (axis : Nat) (median : ℚ) : Geom → Bool
  | .tri a b c _ =>
      decide (a.get axis < median) || decide (b.get axis < median) ||
        decide (c.get axis < median)
  | .sph cen r _ => decide (cen.get axis - r < median)

/-- Distribution rule for the right child: a triangle goes right when any
vertex coordinate is `≥ median`; a sphere when `center + r ≥ median`. -/
def goesRight (axis : Nat) (median : ℚ) : Geom → Bool
  | .tri a b c _ =>
      decide (median ≤ a.get axis) || decide (median ≤ b.get axis) ||
        decide (median ≤ c.get axis)
  | .sph cen r _ => decide (median ≤ cen.get axis + r)

/-- `KdTreeAcc::buildKdTree`: leaf when the list has at most 8 geometries
or the depth exceeds 18; otherwise run the SAH split and make a leaf when
the best cost exceeds `1.5 * list.size()` (automatic termination);
otherwise split and recurse on the clipped child boxes.  The `none` case
of `splitSAH` (no candidate was ever evaluated, possible only for an
empty list, which the size check already caught) is modelled as
"do not split". -/
def buildKdTree (box : Box) (list : List Geom) (depth : Nat) : KdTree :=
  if h : list.length ≤ 8 ∨ 18 < depth then .leaf box list
  else
    match splitSAH box list with
    | none => .leaf box list
    | some res =>
      if 3/2 * (list.length : ℚ) < res.sah then .leaf box list
      else
        .node box res.axis res.position
          (buildKdTree (leftClip box res.axis res.position)
            (list.filter (goesLeft res.axis res.position)) (depth + 1))
          (buildKdTree (rightClip box res.axis res.position)
            (list.filter (goesRight res.axis res.position)) (depth + 1))
termination_by 19 - depth
decreasing_by
  all_goals omega

/-- Is this node a leaf? -/
def KdTree.isLeafB : KdTree → Bool
  | .leaf _ _ => true
  | .node _ _ _ _ _ => false

/-- Every internal (splitting) node of the tree sits at depth ≤ 18, the
root counting as depth 0. -/
def internalsBounded : KdTree → Nat → Prop
  | .leaf _ _, _ => True
  | .node _ _ _ l r, d => d ≤ 18 ∧ internalsBounded l (d + 1) ∧ internalsBounded r (d + 1)

/-- Every leaf either holds at most 8 geometries, or was forced by the
depth rule (`depth > 18`), or by the SAH no-split rule
(best cost `> 1.5 * size`). -/
def leavesOk : KdTree → Nat → Prop
  | .leaf box items, d =>
      items.length ≤ 8 ∨ 18 < d ∨
        ∀ res, splitSAH box items = some res → 3/2 * (items.length : ℚ) < res.sah
  | .node _ _ _ l r, d => leavesOk l (d + 1) ∧ leavesOk r (d + 1)

/-- C5: a build step produces a leaf exactly when the list has at most 8
geometries, or the depth exceeds 18, or the best SAH cost exceeds
`1.5 ×` the list size; consequently every splitting node of a built tree
sits at depth ≤ 18 (the depth rule turns anything deeper into a leaf, so
splitting stops at depth 18), and every leaf holds at most 8 geometries
unless the depth or SAH rule forced termination. -/
theorem C5_leaf_condition (box : Box) (list : List Geom) (depth : Nat) :
    ((buildKdTree box list depth).isLeafB = true ↔
      list.length ≤ 8 ∨ 18 < depth ∨
        ∀ res, splitSAH box list = some res → 3/2 * (list.length : ℚ) < res.sah) ∧
    internalsBounded (buildKdTree box list depth) depth ∧
    leavesOk (buildKdTree box list depth) depth := by
  induction box, list, depth using buildKdTree.induct with
  | case1 box list depth h =>
      have hred : buildKdTree box list depth = KdTree.leaf box list := by
        rw [buildKdTree, dif_pos h]
      rw [hred]
      refine ⟨⟨fun _ => ?_, fun _ => rfl⟩, trivial, ?_⟩
      · rcases h with h | h
        · exact Or.inl h
        · exact Or.inr (Or.inl h)
      · rcases h with h | h
        · exact Or.inl h
        · exact Or.inr (Or.inl h)
  | case2 box list depth h hsplit =>
      have hred : buildKdTree box list depth = KdTree.leaf box list := by
        rw [buildKdTree, dif_neg h, hsplit]
      rw [hred]
      refine ⟨⟨fun _ => ?_, fun _ => rfl⟩, trivial, ?_⟩
      · refine Or.inr (Or.inr ?_)
        intro res hres
        rw [hsplit] at hres
        cases hres
      · refine Or.inr (Or.inr ?_)
        intro res hres
        rw [hsplit] at hres
        cases hres
  | case3 box list depth h res hsplit hsah =>
      have hred : buildKdTree box list depth = KdTree.leaf box list := by
        rw [buildKdTree, dif_neg h, hsplit]
        exact if_pos hsah
      rw [hred]
      refine ⟨⟨fun _ => ?_, fun _ => rfl⟩, trivial, ?_⟩
      · refine Or.inr (Or.inr ?_)
        intro res2 hres2
        rw [hsplit] at hres2
        injection hres2 with hres2
        subst hres2
        exact hsah
      · refine Or.inr (Or.inr ?_)
        intro res2 hres2
        rw [hsplit] at hres2
        injection hres2 with hres2
        subst hres2
        exact hsah
  | case4 box list depth h res hsplit hsah ihl ihr =>
      have hred : buildKdTree box list depth =
          KdTree.node box res.axis res.position
            (buildKdTree (leftClip box res.axis res.position)
              (list.filter (goesLeft res.axis res.position)) (depth + 1))
            (buildKdTree (rightClip box res.axis res.position)
              (list.filter (goesRight res.axis res.position)) (depth + 1)) := by
        rw [buildKdTree, dif_neg h, hsplit]
        exact if_neg hsah
      rw [hred]
      refine ⟨⟨fun hfalse => Bool.noConfusion hfalse, fun hcond => ?_⟩, ?_, ?_⟩
      · rcases hcond with hcond | hcond | hcond
        · exact absurd (Or.inl hcond) h
        · exact absurd (Or.inr hcond) h
        · exact absurd (hcond res hsplit) hsah
      · exact ⟨by omega, ihl.2.1, ihr.2.1⟩
      · exact ⟨ihl.2.2, ihr.2.2⟩

/- ===================== numeric kernels and the math oracle ===================== -/

/-- Transcendental double routines of the C runtime, plus `PI`, modelled
as an explicit record of rational functions so every definition that
calls them stays computable; theorems quantify over the oracle where the
actual values do not matter. -/
structure Oracle where
  rcos : ℚ → ℚ
  rsin : ℚ → ℚ
  rsqrt : ℚ → ℚ
  racos : ℚ → ℚ
  rlog10 : ℚ → ℚ
  rpow10 : ℚ → ℚ
  csqrt : ℚ × ℚ → ℚ × ℚ

/-- Modelled from the spec: complex scalar, real/imag double pair
(`ComplexNumber` with fields `a`, `b`; Complex.cpp is not under src/). -/
structure ComplexNumber where
  a : ℚ
  b : ℚ
deriving DecidableEq, Repr

namespace ComplexNumber

/-- Modelled from the spec: complex addition. -/
def add (u v : ComplexNumber) : ComplexNumber := ⟨u.a + v.a, u.b + v.b⟩

/-- Modelled from the spec: complex subtraction. -/
def sub (u v : ComplexNumber) : ComplexNumber := ⟨u.a - v.a, u.b - v.b⟩

/-- Modelled from the spec: complex multiplication. -/
def mul (u v : ComplexNumber) : ComplexNumber :=
  ⟨u.a * v.a - u.b * v.b, u.a * v.b + u.b * v.a⟩

/-- Modelled from the spec: complex division (standard formula; a zero
denominator gives zeros, as rational division by zero does). -/
def div (u v : ComplexNumber) : ComplexNumber :=
  ⟨(u.a * v.a + u.b * v.b) / (v.a * v.a + v.b * v.b),
   (u.b * v.a - u.a * v.b) / (v.a * v.a + v.b * v.b)⟩

/-- Scaling by a real. -/
def rsmul (c : ℚ) (u : ComplexNumber) : ComplexNumber := ⟨c * u.a, c * u.b⟩

/-- `ComplexNumber::Euler(mag, phase) = mag·(cos phase + i sin phase)`. -/
def Euler (O : Oracle) (mag phase : ℚ) : ComplexNumber :=
  ⟨mag * O.rcos phase, mag * O.rsin phase⟩

/-- `.Sqrt()` (principal branch), via the oracle: the source for the
complex square root is not under src/. -/
def Sqrt (O : Oracle) (u : ComplexNumber) : ComplexNumber :=
  ⟨(O.csqrt (u.a, u.b)).1, (O.csqrt (u.a, u.b)).2⟩

end ComplexNumber

/-- Modelled from the spec: complex 3-vector (`ComplexVector`). -/
structure ComplexVector where
  x : ComplexNumber
  y : ComplexNumber
  z : ComplexNumber
deriving DecidableEq, Repr

namespace ComplexVector

/-- The zero complex vector. -/
def zero : ComplexVector := ⟨⟨0, 0⟩, ⟨0, 0⟩, ⟨0, 0⟩⟩

/-- Componentwise addition. -/
def add (u v : ComplexVector) : ComplexVector :=
  ⟨u.x.add v.x, u.y.add v.y, u.z.add v.z⟩

/-- Complex scalar times real 3-vector (`ComplexNumber * Vector`). -/
def ofScaled (c : ComplexNumber) (v : Vec3) : ComplexVector :=
  ⟨c.rsmul v.x, c.rsmul v.y, c.rsmul v.z⟩

/-- Real scalar times complex vector (`ComplexVector * double`). -/
def rscale (q : ℚ) (u : ComplexVector) : ComplexVector :=
  ⟨u.x.rsmul q, u.y.rsmul q, u.z.rsmul q⟩

end ComplexVector

/- ===================== read-out surface (GetRxPowers) ===================== -/

/-- One stored receiver contribution: the path signature it was recorded
under, the receiver offset, and the complex field. -/
structure Contribution where
  path : List ℤ
  offset : ℚ
  field : ComplexVector
deriving DecidableEq, Repr

/-- Modelled from the spec: a per-receiver bucket is a collection of
stored contributions (`RxFields`, whose source is not under src/);
`Sum` adds all stored complex vectors componentwise. -/
def RxFieldsSum (bucket : List Contribution) : ComplexVector :=
  bucket.foldl (fun acc c => acc.add c.field) ComplexVector.zero

/-- `|E|^2 = Σ (real² + imag²)`, the `norm_sqr` local of `calc_power`. -/
def normSq (E : ComplexVector) : ℚ :=
  E.x.a * E.x.a + E.x.b * E.x.b +
  E.y.a * E.y.a + E.y.b * E.y.b +
  E.z.a * E.z.a + E.z.b * E.z.b

/-- `calc_power`: watt = λ²/(8π·377)·|E|², result in dBm. -/
def calc_power (O : Oracle) (PI lamda : ℚ) (E : ComplexVector) : ℚ :=
  10 * O.rlog10 (lamda * lamda / (8 * PI * 377) * normSq E) + 30

/-- The six-component exact-zero test of `GetRxPowers`. -/
def sumIsZero (s : ComplexVector) : Bool :=
  decide (s.x.a = 0) && decide (s.x.b = 0) && decide (s.y.a = 0) &&
    decide (s.y.b = 0) && decide (s.z.a = 0) && decide (s.z.b = 0)

/-- `GetRxPowers(powers, n)`: for each registered receiver `i`
(`0 ≤ i < rxFields.size()`, in registration order) write `powers[i]`;
a zero accumulated field reports `txPower - 250`, otherwise
`calc_power` of the summed field.  The output array is modelled as a
total function from indices; `n` is the caller-passed count, which the
loop never consults. -/
def GetRxPowers (O : Oracle) (PI txPower lamda : ℚ)
    (rxFields : List (List Contribution)) (powers : Nat → ℚ) (n : ℤ) :
    Nat → ℚ :=
  fun idx =>
    if h : idx < rxFields.length then
      let sum := RxFieldsSum (rxFields.get ⟨idx, h⟩)
      if sumIsZero sum then txPower - 250 else calc_power O PI lamda sum
    else powers idx

/-- C7: `GetRxPowers` produces one dBm value per registered receiver, in
registration order: for receiver `i`, if the accumulated field sums to
exactly zero in all six components the written value is
`txPower - 250.0`, and otherwise it is
`10·log10(λ²/(8π·377)·|E|²) + 30`. -/
theorem C7_GetRxPowers_value (O : Oracle) (PI txPower lamda : ℚ)
    (rxFields : List (List Contribution)) (powers : Nat → ℚ) (n : ℤ)
    (i : Nat) (h : i < rxFields.length) :
    GetRxPowers O PI txPower lamda rxFields powers n i =
      if (RxFieldsSum (rxFields.get ⟨i, h⟩)).x.a = 0 ∧
         (RxFieldsSum (rxFields.get ⟨i, h⟩)).x.b = 0 ∧
         (RxFieldsSum (rxFields.get ⟨i, h⟩)).y.a = 0 ∧
         (RxFieldsSum (rxFields.get ⟨i, h⟩)).y.b = 0 ∧
         (RxFieldsSum (rxFields.get ⟨i, h⟩)).z.a = 0 ∧
         (RxFieldsSum (rxFields.get ⟨i, h⟩)).z.b = 0
      then txPower - 250
      else 10 * O.rlog10 (lamda ^ 2 / (8 * PI * 377) *
             normSq (RxFieldsSum (rxFields.get ⟨i, h⟩))) + 30 := by
  unfold GetRxPowers
  rw [dif_pos h]
  by_cases hz : sumIsZero (RxFieldsSum (rxFields.get ⟨i, h⟩)) = true
  · have hz2 : (RxFieldsSum (rxFields.get ⟨i, h⟩)).x.a = 0 ∧
        (RxFieldsSum (rxFields.get ⟨i, h⟩)).x.b = 0 ∧
        (RxFieldsSum (rxFields.get ⟨i, h⟩)).y.a = 0 ∧
        (RxFieldsSum (rxFields.get ⟨i, h⟩)).y.b = 0 ∧
        (RxFieldsSum (rxFields.get ⟨i, h⟩)).z.a = 0 ∧
        (RxFieldsSum (rxFields.get ⟨i, h⟩)).z.b = 0 := by
      simpa [sumIsZero, and_assoc] using hz
    simp only [hz, if_pos, if_true]
    rw [if_pos hz2]
  · have hz2 : ¬ ((RxFieldsSum (rxFields.get ⟨i, h⟩)).x.a = 0 ∧
        (RxFieldsSum (rxFields.get ⟨i, h⟩)).x.b = 0 ∧
        (RxFieldsSum (rxFields.get ⟨i, h⟩)).y.a = 0 ∧
        (RxFieldsSum (rxFields.get ⟨i, h⟩)).y.b = 0 ∧
        (RxFieldsSum (rxFields.get ⟨i, h⟩)).z.a = 0 ∧
        (RxFieldsSum (rxFields.get ⟨i, h⟩)).z.b = 0) := by
      intro hc
      exact hz (by simp [sumIsZero, and_assoc] at hc ⊢; exact hc)
    rw [if_neg (by simpa using hz), if_neg hz2]
    unfold calc_power
    ring_nf

/-- Concrete oracle instance for witnesses: all transcendentals are
plain rational stand-ins. -/
def oTest : Oracle :=
  { rcos := fun _ => 1, rsin := fun _ => 0, rsqrt := id, racos := fun _ => 0,
    rlog10 := id, rpow10 := fun _ => 1, csqrt := fun z => z }

/-- A nonzero one-contribution bucket list for witnesses. -/
def rxTest : List (List Contribution) :=
  [[⟨[], 0, ⟨⟨1, 0⟩, ⟨0, 0⟩, ⟨0, 0⟩⟩⟩]]

/-- Witness for `C7_GetRxPowers_value` at receiver 0 of a concrete state. -/
theorem C7_GetRxPowers_value_witness :
    GetRxPowers oTest 3 5 2 rxTest (fun _ => 0) 0 0 =
      if (RxFieldsSum (rxTest.get ⟨0, by decide⟩)).x.a = 0 ∧
         (RxFieldsSum (rxTest.get ⟨0, by decide⟩)).x.b = 0 ∧
         (RxFieldsSum (rxTest.get ⟨0, by decide⟩)).y.a = 0 ∧
         (RxFieldsSum (rxTest.get ⟨0, by decide⟩)).y.b = 0 ∧
         (RxFieldsSum (rxTest.get ⟨0, by decide⟩)).z.a = 0 ∧
         (RxFieldsSum (rxTest.get ⟨0, by decide⟩)).z.b = 0
      then (5 : ℚ) - 250
      else 10 * oTest.rlog10 ((2 : ℚ) ^ 2 / (8 * 3 * 377) *
             normSq (RxFieldsSum (rxTest.get ⟨0, by decide⟩))) + 30 :=
  C7_GetRxPowers_value oTest 3 5 2 rxTest (fun _ => 0) 0 0 (by decide)

/-- C10: `GetRxPowers` ignores its `n` argument entirely: the resulting
array state does not depend on `n`, and exactly the indices
`0 ≤ i < rxFields.size()` (one slot per registered receiver) are
written — every other slot keeps its previous content. -/
theorem C10_GetRxPowers_ignores_n (O : Oracle) (PI txPower lamda : ℚ)
    (rxFields : List (List Contribution)) (powers : Nat → ℚ) (n m : ℤ) :
    GetRxPowers O PI txPower lamda rxFields powers n =
      GetRxPowers O PI txPower lamda rxFields powers m ∧
    (∀ i, rxFields.length ≤ i →
      GetRxPowers O PI txPower lamda rxFields powers n i = powers i) := by
  constructor
  · rfl
  · intro i hi
    unfold GetRxPowers
    rw [dif_neg (by omega)]

/-- Witness for `C10_GetRxPowers_ignores_n` on a concrete state. -/
theorem C10_GetRxPowers_ignores_n_witness :
    GetRxPowers oTest 3 5 2 rxTest (fun _ => 0) 0 =
      GetRxPowers oTest 3 5 2 rxTest (fun _ => 0) 7 ∧
    (∀ i, rxTest.length ≤ i →
      GetRxPowers oTest 3 5 2 rxTest (fun _ => 0) 0 i = (fun _ => (0 : ℚ)) i) :=
  C10_GetRxPowers_ignores_n oTest 3 5 2 rxTest (fun _ => 0) 0 7

/- ===================== binary STL input (AddStlModel) ===================== -/

/-- A binary STL file abstracted to what the reader observes: its byte
size, the little-endian signed 32-bit value stored at offset 80 (the
triangle count field, read into a C `int`), and the decoded value of
float `j` of record `i` (records start at offset 84, 50 bytes each;
IEEE-754 decoding is abstracted into the decoded rational values). -/
structure StlFile where
  size : Nat
  countVal : ℤ
  floatVal : Nat → Nat → ℚ

/-- Float `j` (0–11) of record `i` as the reader obtains it: the decoded
file value when the 4 bytes are inside the file, otherwise the
uninitialised stack value `junk i j` (`fread` past end of file reads
nothing and the loop never checks). -/
def stlFloat (f : StlFile) (junk : Nat → Nat → ℚ) (i j : Nat) : ℚ :=
  if 84 + 50 * i + 4 * (j + 1) ≤ f.size then f.floatVal i j else junk i j

/-- Record `i` turned into the triangle the reader pushes:
floats 0–2 are the normal, 3–5 vertex A, 6–8 vertex B, 9–11 vertex C. -/
def stlTriangle (f : StlFile) (junk : Nat → Nat → ℚ) (i : Nat) : Geom :=
  Geom.tri
    ⟨stlFloat f junk i 3, stlFloat f junk i 4, stlFloat f junk i 5⟩
    ⟨stlFloat f junk i 6, stlFloat f junk i 7, stlFloat f junk i 8⟩
    ⟨stlFloat f junk i 9, stlFloat f junk i 10, stlFloat f junk i 11⟩
    ⟨stlFloat f junk i 0, stlFloat f junk i 1, stlFloat f junk i 2⟩

/-- `AddStlModel`: `false` only when the file cannot be opened; otherwise
the 80-byte header is skipped, the count field is read (staying at its
initialiser `-1` when the `fread` fails, i.e. the file is shorter than
84 bytes), `count` records are read without any `fread` result check,
and every resulting triangle is pushed into the scene; the return value
is `true`. -/
def AddStlModel (f : StlFile) (junk : Nat → Nat → ℚ) (opens : Bool)
    (scene : List Geom) : Bool × List Geom :=
  if opens = false then (false, scene)
  else
    let count : ℤ := if 84 ≤ f.size then f.countVal else -1
    (true, scene ++ (List.range count.toNat).map (stlTriangle f junk))

/-- The failing input for C8: an 84-byte file — a header and a count
field claiming 5 records, with no record data at all. -/
def stlTruncated : StlFile := ⟨84, 5, fun _ _ => 0⟩

/-- C8 (code bug): on the truncated 84-byte STL file announcing 5
records, `AddStlModel` returns success and pushes 5 triangles built
from unread (uninitialised) values into the scene — the claim (and the
spec's error-handling design) requires an I/O failure with the scene
left unchanged.  Evaluated here with all junk values 0. -/
theorem C8_truncated_stl_accepted :
    (AddStlModel stlTruncated (fun _ _ => 0) true []).1 = true ∧
    (AddStlModel stlTruncated (fun _ _ => 0) true []).2.length = 5 := by
  decide

/- ===================== field kernels ===================== -/

/-- `Vector::norm()`: scale to unit length, via the oracle square root
(Vector.cpp is not under src/; the spec's norm-to-unit). -/
def Vec3.normq (O : Oracle) (v : Vec3) : Vec3 :=
  v.smul (1 / O.rsqrt (v.dot v))

/-- 3×3 real matrix, row major (`Matrix(a11, ..., a33)`). -/
structure Matrix3 where
  m11 : ℚ
  m12 : ℚ
  m13 : ℚ
  m21 : ℚ
  m22 : ℚ
  m23 : ℚ
  m31 : ℚ
  m32 : ℚ
  m33 : ℚ
deriving DecidableEq, Repr

/-- Determinant of a 3×3 matrix. -/
def Matrix3.det (M : Matrix3) : ℚ :=
  M.m11 * (M.m22 * M.m33 - M.m23 * M.m32) -
  M.m12 * (M.m21 * M.m33 - M.m23 * M.m31) +
  M.m13 * (M.m21 * M.m32 - M.m22 * M.m31)

/-- Modelled from the spec: `Matrix::inverse`, the closed-form 3×3
(adjugate over determinant) inverse; Matrix.cpp is not under src/. -/
def Matrix3.inverse (M : Matrix3) : Matrix3 :=
  let d := M.det
  ⟨(M.m22 * M.m33 - M.m23 * M.m32) / d, (M.m13 * M.m32 - M.m12 * M.m33) / d,
   (M.m12 * M.m23 - M.m13 * M.m22) / d, (M.m23 * M.m31 - M.m21 * M.m33) / d,
   (M.m11 * M.m33 - M.m13 * M.m31) / d, (M.m13 * M.m21 - M.m11 * M.m23) / d,
   (M.m21 * M.m32 - M.m22 * M.m31) / d, (M.m12 * M.m31 - M.m11 * M.m32) / d,
   (M.m11 * M.m22 - M.m12 * M.m21) / d⟩

/-- Real matrix times complex 3-vector: the matrix applied to each
complex component independently. -/
def Matrix3.mulC (M : Matrix3) (v : ComplexVector) : ComplexVector :=
  ⟨((v.x.rsmul M.m11).add (v.y.rsmul M.m12)).add (v.z.rsmul M.m13),
   ((v.x.rsmul M.m21).add (v.y.rsmul M.m22)).add (v.z.rsmul M.m23),
   ((v.x.rsmul M.m31).add (v.y.rsmul M.m32)).add (v.z.rsmul M.m33)⟩

/-- Ray state (`Ray::Start / FirstReflect / MoreReflect`). -/
inductive RayState where
  | start
  | firstReflect
  | moreReflect
deriving DecidableEq, Repr

/-- A ray with the traversal state the launcher maintains. -/
structure Ray where
  origin : Vec3
  direction : Vec3
  unit_surface_area : ℚ
  state : RayState
  prev_point : Vec3
  prev_mileage : ℚ
  path : List ℤ
deriving DecidableEq, Repr

/-- The `RtParameter` block (user parameters plus the derived `lamda`
and `k`). -/
structure RtParameter where
  permittivity : ℚ
  conductivity : ℚ
  maxReflections : ℤ
  raySpacing : ℚ
  frequency : ℚ
  lamda : ℚ
  k : ℚ
deriving DecidableEq, Repr

/-- `calc_fresnel_coeff`: complex relative permittivity
`ε = permittivity - j·60·λ·conductivity`, `η = sqrt(ε - cos²ψ)`,
returns `(RH, RV)`. -/
def calc_fresnel_coeff (O : Oracle) (P : RtParameter) (psi : ℚ) :
    ComplexNumber × ComplexNumber :=
  let epsilon : ComplexNumber := ⟨P.permittivity, -60 * P.lamda * P.conductivity⟩
  let c := O.rcos psi
  let s := O.rsin psi
  let eta := (epsilon.sub ⟨c * c, 0⟩).Sqrt O
  (((epsilon.rsmul s).sub eta).div ((epsilon.rsmul s).add eta),
   ((⟨s, 0⟩ : ComplexNumber).sub eta).div ((⟨s, 0⟩ : ComplexNumber).add eta))

/-- The four-output `calc_new_base(axi, axr, alpha1, beta1, alpha2, beta2)`
used by the reflection kernel: `alpha1 = norm(axi × axr)` with the
perpendicular-incidence fallback, `beta1 = norm(axi × alpha1)`,
`alpha2 = alpha1`, `beta2 = norm(axr × alpha2)`. -/
def calc_new_base4 (O : Oracle) (axi axr : Vec3) : Vec3 × Vec3 × Vec3 × Vec3 :=
  let a0 := (axi.cross axr).normq O
  let alpha1 :=
    if |a0.x| < 1/100000 ∧ |a0.y| < 1/100000 ∧ |a0.z| < 1/100000 then
      if 1/10 < |axi.x| then ((Vec3.mk 0 1 0).cross axi).normq O
      else ((Vec3.mk 1 0 0).cross axi).normq O
    else a0
  let beta1 := (axi.cross alpha1).normq O
  let beta2 := (axr.cross alpha1).normq O
  (alpha1, beta1, alpha1, beta2)

/-- The two-output `calc_new_base(dir, alpha, beta)` used by the straight
segment transport: `alpha = (0,1,0) × dir` when `|dir.x| > 0.1`, else
`(1,0,0) × dir` — with no normalisation — and `beta = dir × alpha`. -/
def calc_new_base2 (dir : Vec3) : Vec3 × Vec3 :=
  let alpha :=
    if 1/10 < |dir.x| then (Vec3.mk 0 1 0).cross dir
    else (Vec3.mk 1 0 0).cross dir
  (alpha, dir.cross alpha)

/-- `calc_field_direct(Ray&, double)`: the initial-launch field of the
idealised vertical dipole at the given distance. -/
def calc_field_direct0 (O : Oracle) (PI : ℚ) (P : RtParameter)
    (txPower : ℚ) (r : Ray) (distance : ℚ) : ComplexVector :=
  let Pt := O.rpow10 (txPower / 10 - 3)
  let phi_v := (Vec3.mk 0 0 1).cross r.direction
  let theta_v := phi_v.cross r.direction
  let E_theta := ComplexNumber.Euler O (O.rsqrt (Pt * 377 / (2 * PI)) / distance)
    (-P.k * distance)
  let E_phi := ComplexNumber.Euler O 0 0
  (ComplexVector.ofScaled E_theta theta_v).add (ComplexVector.ofScaled E_phi phi_v)

/-- The body of `calc_field_direct(Ray&, double, const ComplexVector&)`
once the basis `(alpha, beta)` is fixed: decompose `Ei` in the basis
whose columns are `(alpha, beta, direction)` via the matrix inverse,
transport the two transverse components with the spherical divergence
factor and the phase `-k·s`, and recompose; any state other than
`MoreReflect` is the error branch, which leaves both components zero. -/
def transportVia (O : Oracle) (P : RtParameter) (alpha beta : Vec3)
    (r : Ray) (distance : ℚ) (Ei : ComplexVector) : ComplexVector :=
  let h : Matrix3 :=
    ⟨alpha.x, beta.x, r.direction.x,
     alpha.y, beta.y, r.direction.y,
     alpha.z, beta.z, r.direction.z⟩
  let A := h.inverse.mulC Ei
  let Ea :=
    if r.state = RayState.moreReflect then
      A.x.mul (ComplexNumber.Euler O (r.prev_mileage / (r.prev_mileage + distance))
        (-P.k * distance))
    else ⟨0, 0⟩
  let Eb :=
    if r.state = RayState.moreReflect then
      A.y.mul (ComplexNumber.Euler O (r.prev_mileage / (r.prev_mileage + distance))
        (-P.k * distance))
    else ⟨0, 0⟩
  (ComplexVector.ofScaled Ea alpha).add (ComplexVector.ofScaled Eb beta)

/-- `calc_field_direct(Ray&, double, const ComplexVector&)`: transport of
the carried field along a straight segment, in the basis produced by the
two-output `calc_new_base` on the ray direction. -/
def calc_field_directE (O : Oracle) (P : RtParameter) (r : Ray)
    (distance : ℚ) (Ei : ComplexVector) : ComplexVector :=
  transportVia O P (calc_new_base2 r.direction).1 (calc_new_base2 r.direction).2
    r distance Ei

/-- The data of an accepted occluder hit that the launcher consumes
(`IntersectResult`: distance, position, outward normal, and the hit
triangle's stable index). -/
structure IntersectResult where
  distance : ℚ
  position : Vec3
  normal : Vec3
  geomIndex : ℤ
deriving DecidableEq, Repr

/-- `calc_field_reflect`: Fresnel-weighted specular reflection of the
carried field at the hit surface. -/
def calc_field_reflect (O : Oracle) (P : RtParameter) (r : Ray)
    (result : IntersectResult) (Ei : ComplexVector) : ComplexVector :=
  let n := result.normal
  let nl := if n.dot r.direction < 0 then n else n.smul (-1)
  let axi := r.direction
  let axr := r.direction.sub (nl.smul (2 * nl.dot r.direction))
  let psi := O.racos (axi.dot axr) / 2
  let fr := calc_fresnel_coeff O P psi
  let nb := calc_new_base4 O axi axr
  let h : Matrix3 :=
    ⟨nb.1.x, nb.2.1.x, axi.x,
     nb.1.y, nb.2.1.y, axi.y,
     nb.1.z, nb.2.1.z, axi.z⟩
  let A := h.inverse.mulC Ei
  let Ea :=
    if r.state = RayState.firstReflect then (A.x.mul fr.2).rsmul 1
    else if r.state = RayState.moreReflect then
      let s2 := O.rsqrt ((result.position.sub r.prev_point).dot
        (result.position.sub r.prev_point))
      (A.x.mul fr.2).mul
        (ComplexNumber.Euler O (r.prev_mileage / (r.prev_mileage + s2)) (-P.k * s2))
    else ⟨0, 0⟩
  let Eb :=
    if r.state = RayState.firstReflect then (A.y.mul fr.1).rsmul 1
    else if r.state = RayState.moreReflect then
      let s2 := O.rsqrt ((result.position.sub r.prev_point).dot
        (result.position.sub r.prev_point))
      (A.y.mul fr.1).mul
        (ComplexNumber.Euler O (r.prev_mileage / (r.prev_mileage + s2)) (-P.k * s2))
    else ⟨0, 0⟩
  (ComplexVector.ofScaled Ea nb.1).add (ComplexVector.ofScaled Eb nb.2.2.2)

/- ===================== the recursive trace ===================== -/

/-- One receiver-sphere piercing as the accelerator reports it
(`RxIntersection`). -/
structure RxIntersection where
  index : Nat
  distance : ℚ
  offset : ℚ
  radius : ℚ
deriving DecidableEq, Repr

/-- The environment of the trace: the math oracle, the `PI` macro value,
the parameter block and transmit power, and the accelerator, abstracted
as a function from a ray to the occluder hit and the receiver piercings
(the `Accelerator::intersect` virtual call). -/
structure TraceEnv where
  O : Oracle
  PI : ℚ
  P : RtParameter
  txPower : ℚ
  acc : Ray → Option IntersectResult × List RxIntersection

/-- One `rxFields[...].AddField(Ez, path, offset)` call, with the state of
the recording ray and the values of the source locals `Ez` (before the
area correction), `projectionArea` and `rxSphereArea` kept alongside. -/
structure RxRecord where
  rxIndex : Nat
  path : List ℤ
  offset : ℚ
  field : ComplexVector
  state : RayState
  rawField : ComplexVector
  projArea : ℚ
  rxArea : ℚ
deriving DecidableEq, Repr

/-- The receiver loop of `trace(Ray&, int, const ComplexVector&)`: for
each piercing compute the transported field, then scale it by
`sqrt(projectionArea / rxSphereArea)` when the ray footprint is smaller
than the receiver cross-section. -/
def rxRecordsE (env : TraceEnv) (r : Ray) (E : ComplexVector)
    (spheres : List RxIntersection) : List RxRecord :=
  spheres.map (fun s =>
    let Ez := calc_field_directE env.O env.P r s.distance E
    let mileage := r.prev_mileage + s.distance
    let projectionArea := r.unit_surface_area * mileage * mileage
    let rxSphereArea := env.PI * s.radius * s.radius
    let Ez2 := if projectionArea < rxSphereArea then
        Ez.rscale (env.O.rsqrt (projectionArea / rxSphereArea))
      else Ez
    ⟨s.index, r.path, s.offset, Ez2, r.state, Ez, projectionArea, rxSphereArea⟩)

/-- The receiver loop of `trace(Ray&, int)`: in `Start` state record the
direct-launch field for each piercing, with no area correction; in any
other state record nothing. -/
def startRecords (env : TraceEnv) (r : Ray)
    (spheres : List RxIntersection) : List RxRecord :=
  if r.state = RayState.start then
    spheres.map (fun s =>
      let Ez := calc_field_direct0 env.O env.PI env.P env.txPower r s.distance
      ⟨s.index, r.path, s.offset, Ez, r.state, Ez,
       r.unit_surface_area * (r.prev_mileage + s.distance) * (r.prev_mileage + s.distance),
       env.PI * s.radius * s.radius⟩)
  else []

/-- The specular direction `v = d - 2(nl·d)·nl` with `nl` the outward
normal flipped against the ray, as computed at both recursion sites. -/
def reflectDir (r : Ray) (result : IntersectResult) : Vec3 :=
  let n := result.normal
  let nl := if n.dot r.direction < 0 then n else n.smul (-1)
  r.direction.sub (nl.smul (2 * nl.dot r.direction))

/-- The ray spawned by `trace(Ray&, int, const ComplexVector&)` at a hit:
state stays `MoreReflect`, `prev_mileage` accumulates the hit distance. -/
def spawnE (r : Ray) (result : IntersectResult) : Ray :=
  ⟨result.position, reflectDir r result, r.unit_surface_area, RayState.moreReflect,
   result.position, r.prev_mileage + result.distance, r.path ++ [result.geomIndex]⟩

/-- The ray spawned by `trace(Ray&, int)` at a hit: state becomes
`MoreReflect`, `prev_mileage` is the distance from the ray origin to the
hit position. -/
def spawnS (O : Oracle) (r : Ray) (result : IntersectResult) : Ray :=
  ⟨result.position, reflectDir r result, r.unit_surface_area, RayState.moreReflect,
   result.position,
   O.rsqrt ((result.position.sub r.origin).dot (result.position.sub r.origin)),
   r.path ++ [result.geomIndex]⟩

/-- `trace(Ray&, int, const ComplexVector&)`: intersect, stop when the
depth exceeds `maxReflections` (before recording anything), record the
area-corrected transported field for every piercing, and on an occluder
hit in `MoreReflect` state spawn the specular ray and recurse (any other
state is the logged error branch, which drops the ray). -/
def traceE (env : TraceEnv) (r : Ray) (depth : ℤ) (E : ComplexVector) :
    List RxRecord :=
  let res := env.acc r
  if h : env.P.maxReflections < depth then []
  else
    let recs := rxRecordsE env r E res.2
    match res.1 with
    | some result =>
      if r.state = RayState.moreReflect then
        recs ++ traceE env (spawnE r result) (depth + 1)
          (calc_field_reflect env.O env.P r result
            (calc_field_directE env.O env.P r result.distance E))
      else recs
    | none => recs
termination_by (env.P.maxReflections + 1 - depth).toNat
decreasing_by
  omega

/-- `trace(Ray&, int)`: intersect, in `Start` state record the direct
field for every piercing (no depth check and no area correction), and on
an occluder hit in `Start` state switch to `FirstReflect`, reflect, and
hand the spawned `MoreReflect` ray to the field-carrying trace. -/
def traceS (env : TraceEnv) (r : Ray) (depth : ℤ) : List RxRecord :=
  let res := env.acc r
  let recs := startRecords env r res.2
  match res.1 with
  | some result =>
    if r.state = RayState.start then
      recs ++ traceE env (spawnS env.O r result) (depth + 1)
        (calc_field_reflect env.O env.P { r with state := RayState.firstReflect } result
          (calc_field_direct0 env.O env.PI env.P env.txPower r result.distance))
    else recs
  | none => recs

/-- One-step unfolding of `traceE` in plain `if`/`match` form. -/
lemma traceE_eq (env : TraceEnv) (r : Ray) (depth : ℤ) (E : ComplexVector) :
    traceE env r depth E =
      if env.P.maxReflections < depth then []
      else
        match (env.acc r).1 with
        | some result =>
          if r.state = RayState.moreReflect then
            rxRecordsE env r E (env.acc r).2 ++
              traceE env (spawnE r result) (depth + 1)
                (calc_field_reflect env.O env.P r result
                  (calc_field_directE env.O env.P r result.distance E))
          else rxRecordsE env r E (env.acc r).2
        | none => rxRecordsE env r E (env.acc r).2 := by
  rw [traceE]
  rfl

/-- One-step unfolding of `traceS` in plain `if`/`match` form. -/
lemma traceS_eq (env : TraceEnv) (r : Ray) (depth : ℤ) :
    traceS env r depth =
      match (env.acc r).1 with
      | some result =>
        if r.state = RayState.start then
          startRecords env r (env.acc r).2 ++
            traceE env (spawnS env.O r result) (depth + 1)
              (calc_field_reflect env.O env.P { r with state := RayState.firstReflect }
                result
                (calc_field_direct0 env.O env.PI env.P env.txPower r result.distance))
        else startRecords env r (env.acc r).2
      | none => startRecords env r (env.acc r).2 := by
  rw [traceS]

/- ===================== C2, C3, C6 theorems ===================== -/

lemma rxRecordsE_corrected (env : TraceEnv) (r : Ray) (E : ComplexVector)
    (spheres : List RxIntersection) :
    ∀ rec ∈ rxRecordsE env r E spheres,
      rec.field = (if rec.projArea < rec.rxArea then
        rec.rawField.rscale (env.O.rsqrt (rec.projArea / rec.rxArea)) else rec.rawField) := by
  intro rec hrec
  simp only [rxRecordsE, List.mem_map] at hrec
  obtain ⟨s, hs, hrec⟩ := hrec
  subst hrec
  rfl

lemma startRecords_shape (env : TraceEnv) (r : Ray)
    (spheres : List RxIntersection) :
    ∀ rec ∈ startRecords env r spheres,
      rec.state = RayState.start ∧ rec.field = rec.rawField := by
  intro rec hrec
  unfold startRecords at hrec
  by_cases h : r.state = RayState.start
  · rw [if_pos h] at hrec
    simp only [List.mem_map] at hrec
    obtain ⟨s, hs, hrec⟩ := hrec
    subst hrec
    exact ⟨h, rfl⟩
  · rw [if_neg h] at hrec
    cases hrec

lemma traceE_corrected (env : TraceEnv) :
    ∀ (r : Ray) (depth : ℤ) (E : ComplexVector),
    ∀ rec ∈ traceE env r depth E,
      rec.field = (if rec.projArea < rec.rxArea then
        rec.rawField.rscale (env.O.rsqrt (rec.projArea / rec.rxArea)) else rec.rawField) := by
  refine traceE.induct env
    (motive := fun r depth E => ∀ rec ∈ traceE env r depth E,
      rec.field = (if rec.projArea < rec.rxArea then
        rec.rawField.rscale (env.O.rsqrt (rec.projArea / rec.rxArea)) else rec.rawField))
    ?_ ?_ ?_ ?_
  · intro r depth E h rec hrec
    rw [traceE_eq, if_pos h] at hrec
    cases hrec
  · intro r depth E res h result hres hst ih rec hrec
    have hres2 : (env.acc r).1 = some result := hres
    rw [traceE_eq, if_neg h, hres2] at hrec
    simp only [if_pos hst, List.mem_append] at hrec
    rcases hrec with hrec | hrec
    · exact rxRecordsE_corrected env r E _ rec hrec
    · exact ih rec hrec
  · intro r depth E res h result hres hst rec hrec
    have hres2 : (env.acc r).1 = some result := hres
    rw [traceE_eq, if_neg h, hres2] at hrec
    simp only [if_neg hst] at hrec
    exact rxRecordsE_corrected env r E _ rec hrec
  · intro r depth E res h hres rec hrec
    have hres2 : (env.acc r).1 = none := hres
    rw [traceE_eq, if_neg h, hres2] at hrec
    exact rxRecordsE_corrected env r E _ rec hrec

/-- Parameter block used by the concrete trace environments. -/
def c2P : RtParameter := ⟨5, 1/100, 3, 1, 900, 1/3, 1⟩

/-- Concrete trace environment: the accelerator reports no occluder and a
single receiver piercing at distance 1, offset 1/2, radius 2. -/
def c2env : TraceEnv := ⟨oTest, 3, c2P, 0, fun _ => (none, [⟨0, 1, 1/2, 2⟩])⟩

/-- A freshly launched ray (`Start` state) with angular-cell area 3. -/
def c2ray : Ray := ⟨⟨0, 0, 0⟩, ⟨1, 0, 0⟩, 3, RayState.start, ⟨0, 0, 0⟩, 0, []⟩

unseal Rat.add Rat.sub Rat.mul Rat.inv in
/-- C2 counterexample: on `c2env`/`c2ray` the launcher records exactly one
contribution, in `Start` state, whose footprint `A_proj = 3` is smaller
than the receiver cross-section `A_rx = 12` — yet the recorded field
equals the uncorrected field and differs from the
`sqrt(A_proj/A_rx)`-scaled value the claim requires. -/
theorem C2_cex_start_uncorrected :
    (traceS c2env c2ray 0).map (fun rec =>
      (rec.state, decide (rec.projArea < rec.rxArea),
       decide (rec.field = rec.rawField.rscale (oTest.rsqrt (rec.projArea / rec.rxArea))),
       decide (rec.field = rec.rawField))) =
      [(RayState.start, true, false, true)] := by
  decide

/-- C2 (amended): every receiver contribution recorded by the
field-carrying trace (`trace(Ray&, int, const ComplexVector&)`) has the
receiver-sphere area correction applied — with
`A_proj = unit_surface_area·(prev_mileage + distance)²` and
`A_rx = π·radius²`, the recorded field is the computed field scaled by
`sqrt(A_proj/A_rx)` when `A_proj < A_rx` and unchanged otherwise — while
every contribution recorded by `trace(Ray&, int)` is a `Start`-state
direct-path contribution recorded with *no* area correction. -/
theorem C2_area_correction_by_state (env : TraceEnv) (r : Ray) (depth : ℤ)
    (E : ComplexVector) :
    (∀ rec ∈ traceE env r depth E,
      rec.field = (if rec.projArea < rec.rxArea then
        rec.rawField.rscale (env.O.rsqrt (rec.projArea / rec.rxArea))
      else rec.rawField)) ∧
    (∀ rec ∈ traceS env r depth,
      (rec.state = RayState.start ∧ rec.field = rec.rawField) ∨
      rec.field = (if rec.projArea < rec.rxArea then
        rec.rawField.rscale (env.O.rsqrt (rec.projArea / rec.rxArea))
      else rec.rawField)) := by
  refine ⟨traceE_corrected env r depth E, ?_⟩
  intro rec hrec
  rw [traceS_eq] at hrec
  rcases hacc : (env.acc r).1 with _ | result
  · simp only [hacc] at hrec
    exact Or.inl (startRecords_shape env r _ rec hrec)
  · simp only [hacc] at hrec
    by_cases hst : r.state = RayState.start
    · rw [if_pos hst] at hrec
      rcases List.mem_append.mp hrec with hrec | hrec
      · exact Or.inl (startRecords_shape env r _ rec hrec)
      · exact Or.inr (traceE_corrected env _ _ _ rec hrec)
    · rw [if_neg hst] at hrec
      exact Or.inl (startRecords_shape env r _ rec hrec)

unseal Rat.add Rat.sub Rat.mul Rat.inv in
/-- Witness for `C2_area_correction_by_state`: the single record of the
concrete `c2env`/`c2ray` launch satisfies the disjunction. -/
theorem C2_area_correction_by_state_witness :
    ((((traceS c2env c2ray 0).get ⟨0, by decide⟩).state = RayState.start ∧
      ((traceS c2env c2ray 0).get ⟨0, by decide⟩).field =
        ((traceS c2env c2ray 0).get ⟨0, by decide⟩).rawField) ∨
     ((traceS c2env c2ray 0).get ⟨0, by decide⟩).field =
       (if ((traceS c2env c2ray 0).get ⟨0, by decide⟩).projArea <
           ((traceS c2env c2ray 0).get ⟨0, by decide⟩).rxArea then
         (((traceS c2env c2ray 0).get ⟨0, by decide⟩).rawField).rscale
           (c2env.O.rsqrt (((traceS c2env c2ray 0).get ⟨0, by decide⟩).projArea /
             ((traceS c2env c2ray 0).get ⟨0, by decide⟩).rxArea))
       else ((traceS c2env c2ray 0).get ⟨0, by decide⟩).rawField)) :=
  (C2_area_correction_by_state c2env c2ray 0 ComplexVector.zero).2
    ((traceS c2env c2ray 0).get ⟨0, by decide⟩) (by decide)

/-- Concrete direction for the C3 counterexample. -/
def c3dir : Vec3 := ⟨3/5, 4/5, 0⟩

/-- The transport basis exactly as the claim words it:
`alpha = (1,0,0) × j` if `|j_x| > 0.1`, else `(0,1,0) × j`, then
normalised, with `beta = j × alpha`. -/
def specBaseOf (O : Oracle) (j : Vec3) : Vec3 × Vec3 :=
  let alpha :=
    (if 1/10 < |j.x| then (Vec3.mk 1 0 0).cross j
     else (Vec3.mk 0 1 0).cross j).normq O
  (alpha, j.cross alpha)

unseal Rat.add Rat.sub Rat.mul Rat.inv in
/-- C3 counterexample: for `j = (3/5, 4/5, 0)` (so `|j_x| > 0.1`) the
source basis is `alpha = (0,1,0) × j = (0, 0, -3/5)` — the other seed
vector than the claim's, and not normalised — while the claim's formula
gives `alpha = (0, 0, 5/4)` (with the honest square root `4/5` on
`16/25`).  The two bases differ. -/
theorem C3_cex_base_pick_and_norm :
    calc_new_base2 c3dir ≠ specBaseOf oTest c3dir := by
  decide

/-- C3 (amended): for every direction `j`, the transport basis is
`alpha = (0,1,0) × j` if `|j_x| > 0.1`, else `(1,0,0) × j`, with *no*
normalisation, and `beta = j × alpha`; and the straight-segment
transport decomposes and recomposes the carried field exactly in this
basis. -/
theorem C3_transport_basis_amended :
    (∀ j : Vec3, calc_new_base2 j =
      (if 1/10 < |j.x| then (Vec3.mk 0 1 0).cross j else (Vec3.mk 1 0 0).cross j,
       j.cross
         (if 1/10 < |j.x| then (Vec3.mk 0 1 0).cross j else (Vec3.mk 1 0 0).cross j))) ∧
    (∀ (O : Oracle) (P : RtParameter) (r : Ray) (d : ℚ) (Ei : ComplexVector),
      calc_field_directE O P r d Ei =
        transportVia O P (calc_new_base2 r.direction).1 (calc_new_base2 r.direction).2
          r d Ei) :=
  ⟨fun _ => rfl, fun _ _ _ _ _ => rfl⟩

/-- Concrete environment with `maxReflections = 0`. -/
def c6env : TraceEnv :=
  ⟨oTest, 3, ⟨5, 1/100, 0, 1, 900, 1/3, 1⟩, 0, fun _ => (none, [⟨0, 1, 1/2, 2⟩])⟩

/-- C6: when `maxReflections = 0`, the field-carrying trace records
nothing at any depth ≥ 1, so a launched ray (depth 0) records exactly
its `Start`-state direct-path contributions and nothing else: every
recorded contribution is in `Start` state. -/
theorem C6_maxzero_direct_only (env : TraceEnv)
    (h0 : env.P.maxReflections = 0) :
    (∀ (r : Ray) (depth : ℤ) (E : ComplexVector), 1 ≤ depth →
      traceE env r depth E = []) ∧
    (∀ r : Ray, traceS env r 0 = startRecords env r (env.acc r).2) ∧
    (∀ r : Ray, ∀ rec ∈ traceS env r 0, rec.state = RayState.start) := by
  have hE : ∀ (r : Ray) (depth : ℤ) (E : ComplexVector), 1 ≤ depth →
      traceE env r depth E = [] := by
    intro r depth E hd
    rw [traceE_eq, if_pos (by omega)]
  have hS : ∀ r : Ray, traceS env r 0 = startRecords env r (env.acc r).2 := by
    intro r
    rw [traceS_eq]
    rcases hacc : (env.acc r).1 with _ | result
    · simp only [hacc]
    · simp only [hacc]
      by_cases hst : r.state = RayState.start
      · rw [if_pos hst,
          hE (spawnS env.O r result) (0 + 1)
            (calc_field_reflect env.O env.P { r with state := RayState.firstReflect }
              result
              (calc_field_direct0 env.O env.PI env.P env.txPower r result.distance))
            (by omega),
          List.append_nil]
      · rw [if_neg hst]
  refine ⟨hE, hS, ?_⟩
  intro r rec hrec
  rw [hS r] at hrec
  exact (startRecords_shape env r _ rec hrec).1

unseal Rat.add Rat.sub Rat.mul Rat.inv in
/-- Witness for `C6_maxzero_direct_only` on the concrete zero-bounce
environment. -/
theorem C6_maxzero_direct_only_witness :
    traceE c6env c2ray 1 ComplexVector.zero = [] ∧
    traceS c6env c2ray 0 = startRecords c6env c2ray (c6env.acc c2ray).2 :=
  ⟨(C6_maxzero_direct_only c6env rfl).1 c2ray 1 ComplexVector.zero (by omega),
   (C6_maxzero_direct_only c6env rfl).2.1 c2ray⟩

/- ===================== k-d traversal (KdTreeAcc::intersect) ===================== -/

/-- Geometry as the traversal sees it: the runtime type tag (sphere =
receiver, otherwise triangle = occluder), the receiver data, the stable
triangle index, the outward normal, and the ray-intersection routine
abstracted as a function (Triangle.cpp / Sphere.cpp are not under src/):
`none` for a miss, otherwise the hit distance and position. -/
structure TGeom where
  isSphere : Bool
  sIndex : Nat
  center : Vec3
  radius : ℚ
  gIndex : ℤ
  normal : Vec3
  hitFn : Ray → Option (ℚ × Vec3)

/-- The k-d tree as the traversal consumes it. -/
inductive TTree where
  | leaf (items : List TGeom)
  | node (axis : Nat) (split : ℚ) (left right : TTree)

/-- One slot of the fixed 50-entry traversal stack (`StackElem`). -/
structure StackElem where
  t : ℚ
  pb : Vec3
  node : Option TTree
  prev : Nat

/-- The data of the accepted occluder (`minResult`). -/
structure OccOut where
  distance : ℚ
  position : Vec3
  normal : Vec3
  gIndex : ℤ
deriving DecidableEq, Repr

/-- The per-receiver info kept in the `rxIntersections` map
(`RxSphereInfo`). -/
structure RxInfo where
  distance : ℚ
  offset : ℚ
  radius : ℚ
deriving DecidableEq, Repr

/-- `std::map<int, RxSphereInfo>` as a key-sorted association list;
`operator[]` assignment inserts or replaces. -/
def mapSet : List (Nat × RxInfo) → Nat → RxInfo → List (Nat × RxInfo)
  | [], k, v => [(k, v)]
  | (k0, v0) :: rest, k, v =>
      if k < k0 then (k, v) :: (k0, v0) :: rest
      else if k = k0 then (k, v) :: rest
      else (k0, v0) :: mapSet rest k v

/-- The traversal state: the stack array (a total function over indices),
the entry and exit indices, the receiver map, and the instrumentation
flag `bad`, which latches when a stack access goes out of the 50-entry
bounds or a push overwrites a stack slot in use. -/
structure TravState where
  stk : Nat → StackElem
  enPt : Nat
  exPt : Nat
  rxMap : List (Nat × RxInfo)
  bad : Bool

/-- The prev-chain of stack indices from `i` downward: follow `prev`
until a slot whose `node` is the termination flag `NULL`. -/
def prevChain (stk : Nat → StackElem) : Nat → Nat → List Nat
  | 0, i => [i]
  | fuel + 1, i =>
      match (stk i).node with
      | none => [i]
      | some _ => i :: prevChain stk fuel ((stk i).prev)

/-- The stack slots in use: the entry slot and the chain of pending exit
slots. -/
def inUse (s : TravState) : List Nat := s.enPt :: prevChain s.stk 50 s.exPt

/-- Latch `bad` when the current entry or exit index is outside the
50-entry array (checked wherever the source reads `stack[enPt]` or
`stack[exPt]`). -/
def chk (s : TravState) : TravState :=
  { s with bad := s.bad || decide (49 < s.enPt) || decide (49 < s.exPt) }

/-- A push of the far child (`tmp = exPt++; if (exPt == enPt) exPt += 1;`
then the five stores into `stack[exPt]`): also latches `bad` when the
written index leaves the array or lands on a slot in use. -/
def pushFar (s : TravState) (ray : Ray) (axis : Nat) (splitVal t : ℚ)
    (farChild : TTree) : TravState :=
  let tmp := s.exPt
  let ex1 := s.exPt + 1
  let ex2 := if ex1 = s.enPt then ex1 + 1 else ex1
  let nextAxis := (axis + 1) % 3
  let prevAxis := (axis + 2) % 3
  let pb :=
    (((s.stk ex2).pb.set axis splitVal).set nextAxis
        (ray.origin.get nextAxis + t * ray.direction.get nextAxis)).set prevAxis
      (ray.origin.get prevAxis + t * ray.direction.get prevAxis)
  { s with
    stk := fun j => if j = ex2 then ⟨t, pb, some farChild, tmp⟩ else s.stk j,
    exPt := ex2,
    bad := s.bad || decide (49 < ex2) || decide (ex2 ∈ inUse s) }

/-- The inner descent loop (`while (currNode->axis != NoAxis)`): walk from
the current node down to a leaf, pushing the far child when the segment
straddles the splitting plane. -/
def descend (ray : Ray) : TTree → TravState → TravState × List TGeom
  | .leaf items, s => (s, items)
  | .node axis splitVal l r, s =>
      let s := chk s
      if (s.stk s.enPt).pb.get axis ≤ splitVal then
        if (s.stk s.exPt).pb.get axis ≤ splitVal then descend ray l s
        else if (s.stk s.exPt).pb.get axis = splitVal then descend ray r s
        else
          let t := (splitVal - ray.origin.get axis) / ray.direction.get axis
          descend ray l (pushFar s ray axis splitVal t r)
      else
        if splitVal < (s.stk s.exPt).pb.get axis then descend ray r s
        else
          let t := (splitVal - ray.origin.get axis) / ray.direction.get axis
          descend ray r (pushFar s ray axis splitVal t l)

/-- Does `dist` beat the running `minDistance` (`DBL_MAX` when no triangle
hit has been accepted yet)? -/
def ltMin (dist : ℚ) (cur : Option OccOut) : Bool :=
  match cur with
  | none => true
  | some occ => decide (dist < occ.distance)

/-- The leaf test loop: every geometry of the leaf is intersected; a hit
counts when its distance lies within
`[stack[enPt].t - 0.001, stack[exPt].t + 0.001]`; receiver-sphere hits
closer than the running minimum overwrite the receiver's map slot, and
triangle hits track the nearest accepted occluder. -/
def leafScan (O : Oracle) (ray : Ray) (tEn tEx : ℚ) (items : List TGeom)
    (m0 : List (Nat × RxInfo)) : List (Nat × RxInfo) × Option OccOut :=
  items.foldl
    (fun (st : List (Nat × RxInfo) × Option OccOut) g =>
      match g.hitFn ray with
      | none => st
      | some (dist, pos) =>
          if tEn - 1/1000 ≤ dist ∧ dist ≤ tEx + 1/1000 then
            if g.isSphere && ltMin dist st.2 then
              (mapSet st.1 g.sIndex
                ⟨dist, O.rsqrt ((g.center.sub pos).dot (g.center.sub pos)), g.radius⟩,
               st.2)
            else if ltMin dist st.2 then (st.1, some ⟨dist, pos, g.normal, g.gIndex⟩)
            else st
          else st)
    (m0, none)

/-- Turn one map slot into the emitted `RxIntersection`. -/
def emitRx (kv : Nat × RxInfo) : RxIntersection :=
  ⟨kv.1, kv.2.distance, kv.2.offset, kv.2.radius⟩

/-- The outer traversal loop (`while (currNode != NULL)`), fuelled: visit
the current subtree down to a leaf, test the leaf, and either return the
accepted occluder together with the collected receivers strictly closer
than it, or pop the next pending node; when the stack runs out
(`node == NULL`), return "no hit" and emit every collected receiver. -/
def travLoop (O : Oracle) (ray : Ray) :
    Nat → Option TTree → TravState →
      TravState × Option (Option OccOut × List RxIntersection)
  | 0, _, s => (s, none)
  | _ + 1, none, s => (s, some (none, s.rxMap.map emitRx))
  | fuel + 1, some tree, s =>
      let s1p := descend ray tree s
      let s2 := chk s1p.1
      let scan := leafScan O ray ((s2.stk s2.enPt).t) ((s2.stk s2.exPt).t) s1p.2 s2.rxMap
      let s3 := { s2 with rxMap := scan.1 }
      match scan.2 with
      | some occ =>
          (s3, some (some occ,
            (scan.1.filter (fun kv => decide (kv.2.distance < occ.distance))).map emitRx))
      | none =>
          let enPt2 := s3.exPt
          let curr2 := (s3.stk s3.exPt).node
          let exPt2 := (s3.stk enPt2).prev
          travLoop O ray fuel curr2 { s3 with enPt := enPt2, exPt := exPt2 }

/-- `KdTreeAcc::intersect`: intersect the ray with the scene box (the
`Grid::intersect` call, abstracted as the optional entry/exit pair
`boxHit`, its source not being under src/), set up the two initial stack
slots on top of the uninitialised array `junk`, and run the traversal
loop.  Returns the final instrumented state and — unless the fuel ran
out — the occluder result and the emitted receiver list. -/
def kdIntersect (O : Oracle) (tree : TTree) (ray : Ray)
    (boxHit : Option (ℚ × ℚ)) (junk : Nat → StackElem) (fuel : Nat) :
    TravState × Option (Option OccOut × List RxIntersection) :=
  match boxHit with
  | none => (⟨junk, 0, 1, [], false⟩, some (none, []))
  | some (a, b) =>
      let e0 := junk 0
      let e1 := junk 1
      let stk0 : Nat → StackElem := fun j =>
        if j = 0 then
          ⟨a, if 0 ≤ a then ray.origin.add (ray.direction.smul a) else ray.origin,
           e0.node, e0.prev⟩
        else if j = 1 then
          ⟨b, ray.origin.add (ray.direction.smul b), none, e1.prev⟩
        else junk j
      travLoop O ray fuel (some tree) ⟨stk0, 0, 1, [], false⟩

/- ===================== C4: occluder vs collected receivers ===================== -/

lemma emit_filter_lt (m : List (Nat × RxInfo)) (q : ℚ) :
    ∀ e ∈ (m.filter (fun kv => decide (kv.2.distance < q))).map emitRx,
      e.distance < q := by
  intro e he
  simp only [List.mem_map, List.mem_filter] at he
  obtain ⟨kv, ⟨_, hlt⟩, he⟩ := he
  subst he
  exact of_decide_eq_true hlt

lemma travLoop_emit (O : Oracle) (ray : Ray) :
    ∀ (fuel : Nat) (curr : Option TTree) (s : TravState)
      (st2 : TravState) (hit : Option OccOut) (emitted : List RxIntersection),
      travLoop O ray fuel curr s = (st2, some (hit, emitted)) →
        (∀ occ, hit = some occ →
          emitted = (st2.rxMap.filter
            (fun kv => decide (kv.2.distance < occ.distance))).map emitRx) ∧
        (hit = none → emitted = st2.rxMap.map emitRx) := by
  intro fuel
  induction fuel with
  | zero =>
      intro curr s st2 hit emitted h
      simp only [travLoop] at h
      have h2 := congrArg Prod.snd h
      simp at h2
  | succ fuel ih =>
      intro curr s st2 hit emitted h
      match curr with
      | none =>
          simp only [travLoop] at h
          have h1 := congrArg Prod.fst h
          have h2 := congrArg Prod.snd h
          simp only [] at h1 h2
          injection h2 with h2
          injection h2 with ha hb
          subst h1
          constructor
          · intro occ hocc
            rw [← ha] at hocc
            cases hocc
          · intro _
            exact hb.symm
      | some tree =>
          simp only [travLoop] at h
          split at h
          next occ heq =>
            have h1 := congrArg Prod.fst h
            have h2 := congrArg Prod.snd h
            simp only [] at h1 h2
            injection h2 with h2
            injection h2 with ha hb
            subst h1
            constructor
            · intro occ2 hocc
              rw [← ha] at hocc
              injection hocc with hocc
              subst hocc
              exact hb.symm
            · intro hnone
              rw [← ha] at hnone
              cases hnone
          next heq =>
            exact ih _ _ st2 hit emitted h

/-- C4: whenever the traversal returns (fuel sufficed), the emitted
receiver list is exactly the collected receivers whose recorded distance
is strictly below the accepted occluder's distance — so every reported
receiver distance is below the occluder distance — and when no occluder
is returned, every collected receiver is emitted. -/
theorem C4_receiver_emission (O : Oracle) (tree : TTree) (ray : Ray)
    (boxHit : Option (ℚ × ℚ)) (junk : Nat → StackElem) (fuel : Nat)
    (st2 : TravState) (hit : Option OccOut) (emitted : List RxIntersection) :
    kdIntersect O tree ray boxHit junk fuel = (st2, some (hit, emitted)) →
      (∀ occ, hit = some occ →
        emitted = (st2.rxMap.filter
          (fun kv => decide (kv.2.distance < occ.distance))).map emitRx ∧
        ∀ e ∈ emitted, e.distance < occ.distance) ∧
      (hit = none → emitted = st2.rxMap.map emitRx) := by
  intro h
  rcases boxHit with _ | ⟨a, b⟩
  · simp only [kdIntersect] at h
    have h1 := congrArg Prod.fst h
    have h2 := congrArg Prod.snd h
    simp only [] at h1 h2
    injection h2 with h2
    injection h2 with ha hb
    subst h1
    constructor
    · intro occ hocc
      rw [← ha] at hocc
      cases hocc
    · intro _
      exact hb.symm
  · simp only [kdIntersect] at h
    obtain ⟨hfilter, hall⟩ := travLoop_emit O ray fuel _ _ st2 hit emitted h
    refine ⟨?_, hall⟩
    intro occ hocc
    refine ⟨hfilter occ hocc, ?_⟩
    rw [hfilter occ hocc]
    exact emit_filter_lt st2.rxMap occ.distance

/-- Concrete receiver sphere for the C4 witness: index 0, pierced at
distance 1. -/
def tGeomSphere : TGeom := ⟨true, 0, ⟨5, 0, 0⟩, 1, 0, ⟨0, 0, 1⟩, fun _ => some (1, ⟨1, 0, 0⟩)⟩

/-- Concrete occluder triangle for the C4 witness: index 7, hit at
distance 2. -/
def tGeomTri : TGeom := ⟨false, 0, ⟨0, 0, 0⟩, 0, 7, ⟨0, 0, 1⟩, fun _ => some (2, ⟨2, 0, 0⟩)⟩

/-- One-leaf tree holding the witness sphere and triangle. -/
def c4tree : TTree := .leaf [tGeomSphere, tGeomTri]

/-- All-zero initial stack contents. -/
def c4junk : Nat → StackElem := fun _ => ⟨0, ⟨0, 0, 0⟩, none, 0⟩

/-- The occluder the witness traversal accepts. -/
def c4occ : OccOut := ⟨2, ⟨2, 0, 0⟩, ⟨0, 0, 1⟩, 7⟩

unseal Rat.add Rat.sub Rat.mul Rat.inv in
/-- Witness for `C4_receiver_emission`: the concrete one-leaf traversal
returns the triangle at distance 2 and emits the one collected receiver
pierced at distance 1. -/
theorem C4_receiver_emission_witness :
    (∀ occ, some c4occ = some occ →
      [(⟨0, 1, 16, 1⟩ : RxIntersection)] =
        ((kdIntersect oTest c4tree c2ray (some (0, 10)) c4junk 5).1.rxMap.filter
          (fun kv => decide (kv.2.distance < occ.distance))).map emitRx ∧
      ∀ e ∈ [(⟨0, 1, 16, 1⟩ : RxIntersection)], e.distance < occ.distance) ∧
    (some c4occ = none →
      [(⟨0, 1, 16, 1⟩ : RxIntersection)] =
        (kdIntersect oTest c4tree c2ray (some (0, 10)) c4junk 5).1.rxMap.map emitRx) := by
  have h2 : (kdIntersect oTest c4tree c2ray (some (0, 10)) c4junk 5).2 =
      some (some c4occ, [(⟨0, 1, 16, 1⟩ : RxIntersection)]) := by decide
  have h : kdIntersect oTest c4tree c2ray (some (0, 10)) c4junk 5 =
      ((kdIntersect oTest c4tree c2ray (some (0, 10)) c4junk 5).1,
        some (some c4occ, [(⟨0, 1, 16, 1⟩ : RxIntersection)])) := by
    rw [← h2]
  exact C4_receiver_emission oTest c4tree c2ray (some (0, 10)) c4junk 5
    (kdIntersect oTest c4tree c2ray (some (0, 10)) c4junk 5).1
    (some c4occ) [⟨0, 1, 16, 1⟩] h

/-- The build's depth bound on a traversal tree: every splitting node sits
at depth at most 18 when the root is placed at depth `d`. -/
def OkAt : TTree → Nat → Prop
  | .leaf _, _ => True
  | .node _ _ l r, d => d ≤ 18 ∧ OkAt l (d + 1) ∧ OkAt r (d + 1)

/-- Well-formedness of the pending-exit chain rooted at stack slot `i`,
relative to a current descent depth `d`: the chain bottoms out at a slot
whose `node` is the `NULL` terminator (at index ≤ 1, one of the two
initial slots), and every pending far child was pushed at some depth
`dt ≤ d` with `dt ≤ 19`, its subtree satisfying the depth bound there,
its `prev` pointing strictly down the chain, and its index bounded by
`2·dt + 1`. -/
inductive ChainOk (stk : Nat → StackElem) : Nat → Nat → Prop where
  | base (i d : Nat) : (stk i).node = none → i ≤ 1 → ChainOk stk i d
  | step (i d dt : Nat) (t : TTree) :
      (stk i).node = some t → dt ≤ d → dt ≤ 19 → OkAt t dt →
      (stk i).prev < i → i ≤ 2 * dt + 1 →
      ChainOk stk ((stk i).prev) dt →
      ChainOk stk i d

lemma ChainOk.top_le {stk : Nat → StackElem} {i d : Nat}
    (h : ChainOk stk i d) : i ≤ 39 := by
  cases h with
  | base _ _ _ hle => omega
  | step _ _ dt _ _ _ h19 _ _ hle _ => omega

lemma ChainOk.mono {stk : Nat → StackElem} {i d d2 : Nat}
    (h : ChainOk stk i d) (hd : d ≤ d2) : ChainOk stk i d2 := by
  cases h with
  | base _ _ hnode hle => exact ChainOk.base i d2 hnode hle
  | step _ _ dt t hnode hdt h19 hok hprev hle tail =>
      exact ChainOk.step i d2 dt t hnode (by omega) h19 hok hprev hle tail

lemma ChainOk.congr {stk stk2 : Nat → StackElem} {i d : Nat}
    (h : ChainOk stk i d) (heq : ∀ j, j ≤ i → stk2 j = stk j) :
    ChainOk stk2 i d := by
  induction h with
  | base i d hnode hle =>
      exact ChainOk.base i d (by rw [heq i (le_refl i)]; exact hnode) hle
  | step i d dt t hnode hdt h19 hok hprev hle tail ih =>
      refine ChainOk.step i d dt t (by rw [heq i (le_refl i)]; exact hnode) hdt h19 hok
        (by rw [heq i (le_refl i)]; exact hprev) hle ?_
      rw [heq i (le_refl i)]
      exact ih (fun j hj => heq j (by omega))

lemma ChainOk.chain_elems_le {stk : Nat → StackElem} {i d : Nat}
    (h : ChainOk stk i d) : ∀ f, ∀ j ∈ prevChain stk f i, j ≤ i := by
  induction h with
  | base i d hnode hle =>
      intro f j hj
      cases f with
      | zero =>
          simp only [prevChain, List.mem_singleton] at hj
          omega
      | succ f =>
          simp only [prevChain, hnode, List.mem_singleton] at hj
          omega
  | step i d dt t hnode hdt h19 hok hprev hle tail ih =>
      intro f j hj
      cases f with
      | zero =>
          simp only [prevChain, List.mem_singleton] at hj
          omega
      | succ f =>
          simp only [prevChain, hnode, List.mem_cons] at hj
          rcases hj with hj | hj
          · omega
          · have := ih f j hj
            omega
lemma pushFar_ok (s : TravState) (ray : Ray) (axis : Nat) (splitVal t : ℚ)
    (farChild : TTree) (dcur : Nat)
    (hbad : s.bad = false) (hch : ChainOk s.stk s.exPt dcur) (hen : s.enPt ≤ 39)
    (hdc : dcur ≤ 18) (hokFar : OkAt farChild (dcur + 1)) :
    (pushFar s ray axis splitVal t farChild).bad = false ∧
    (pushFar s ray axis splitVal t farChild).enPt = s.enPt ∧
    ChainOk (pushFar s ray axis splitVal t farChild).stk
      (pushFar s ray axis splitVal t farChild).exPt (dcur + 1) := by
  have hex39 : s.exPt ≤ 39 := hch.top_le
  have hexTop : s.exPt ≤ 2 * dcur + 1 := by
    cases hch with
    | base _ _ _ hle => omega
    | step _ _ dt _ _ hdt _ _ _ hle _ => omega
  set ex1 := s.exPt + 1 with hex1
  set ex2 := (if ex1 = s.enPt then ex1 + 1 else ex1) with hex2
  have hex2gt : s.exPt < ex2 := by
    rw [hex2]
    split
    · omega
    · omega
  have hex2le : ex2 ≤ s.exPt + 2 := by
    rw [hex2]
    split
    · omega
    · omega
  have hex2ne : ex2 ≠ s.enPt := by
    rw [hex2]
    split
    next heq => omega
    next heq => rw [hex1]; rw [hex1] at heq; exact heq
  have hnotin : ex2 ∉ inUse s := by
    simp only [inUse, List.mem_cons]
    push_neg
    refine ⟨hex2ne, ?_⟩
    intro hmem
    have := hch.chain_elems_le 50 ex2 hmem
    omega
  constructor
  · show (s.bad || decide (49 < ex2) || decide (ex2 ∈ inUse s)) = false
    rw [hbad, decide_eq_false hnotin, decide_eq_false (show ¬ (49 < ex2) by omega)]
    rfl
  constructor
  · rfl
  · show ChainOk _ ex2 (dcur + 1)
    have hstknew : ∀ j, j ≤ s.exPt →
        (fun j => if j = ex2 then
          (⟨t, (((s.stk ex2).pb.set axis splitVal).set ((axis + 1) % 3)
              (ray.origin.get ((axis + 1) % 3) + t * ray.direction.get ((axis + 1) % 3))).set
              ((axis + 2) % 3)
              (ray.origin.get ((axis + 2) % 3) + t * ray.direction.get ((axis + 2) % 3)),
            some farChild, s.exPt⟩ : StackElem)
          else s.stk j) j = s.stk j := by
      intro j hj
      simp only []
      rw [if_neg (by omega)]
    refine ChainOk.step ex2 (dcur + 1) (dcur + 1) farChild ?_ (le_refl _) (by omega)
      hokFar ?_ (by omega) ?_
    · show (if ex2 = ex2 then _ else s.stk ex2).node = some farChild
      rw [if_pos rfl]
    · show (if ex2 = ex2 then _ else s.stk ex2).prev < ex2
      rw [if_pos rfl]
      exact hex2gt
    · show ChainOk _ (if ex2 = ex2 then _ else s.stk ex2).prev (dcur + 1)
      rw [if_pos rfl]
      exact (hch.mono (by omega)).congr hstknew
lemma chk_bad (s : TravState) (hbad : s.bad = false) (hen : s.enPt ≤ 49)
    (hex : s.exPt ≤ 49) : (chk s).bad = false := by
  show (s.bad || decide (49 < s.enPt) || decide (49 < s.exPt)) = false
  rw [hbad, decide_eq_false (show ¬ (49 < s.enPt) by omega),
    decide_eq_false (show ¬ (49 < s.exPt) by omega)]
  rfl

lemma descend_ok (ray : Ray) : ∀ (t : TTree) (s : TravState) (d : Nat),
    s.bad = false → OkAt t d → ChainOk s.stk s.exPt d → s.enPt ≤ 39 →
    ((descend ray t s).1.bad = false ∧
     (descend ray t s).1.enPt = s.enPt ∧
     ∃ d2, d ≤ d2 ∧ ChainOk (descend ray t s).1.stk (descend ray t s).1.exPt d2) := by
  intro t
  induction t with
  | leaf items =>
      intro s d hbad _ hch _
      exact ⟨hbad, rfl, d, le_refl d, hch⟩
  | node axis splitVal l r ihl ihr =>
      intro s d hbad hok hch hen
      obtain ⟨hd18, hokl, hokr⟩ := hok
      have hsc : (chk s).bad = false :=
        chk_bad s hbad (by omega) (by have := hch.top_le; omega)
      simp only [descend]
      by_cases h1 : ((chk s).stk (chk s).enPt).pb.get axis ≤ splitVal
      · rw [if_pos h1]
        by_cases h2 : ((chk s).stk (chk s).exPt).pb.get axis ≤ splitVal
        · rw [if_pos h2]
          obtain ⟨q1, q2, d2, hd2, q3⟩ :=
            ihl (chk s) (d + 1) hsc hokl (hch.mono (by omega)) hen
          exact ⟨q1, q2, d2, by omega, q3⟩
        · rw [if_neg h2]
          by_cases h3 : ((chk s).stk (chk s).exPt).pb.get axis = splitVal
          · rw [if_pos h3]
            obtain ⟨q1, q2, d2, hd2, q3⟩ :=
              ihr (chk s) (d + 1) hsc hokr (hch.mono (by omega)) hen
            exact ⟨q1, q2, d2, by omega, q3⟩
          · rw [if_neg h3]
            obtain ⟨pb1, pe1, pc1⟩ :=
              pushFar_ok (chk s) ray axis splitVal
                ((splitVal - ray.origin.get axis) / ray.direction.get axis) r d
                hsc hch hen hd18 hokr
            obtain ⟨q1, q2, d2, hd2, q3⟩ :=
              ihl _ (d + 1) pb1 hokl pc1 (by rw [pe1]; exact hen)
            exact ⟨q1, by rw [q2, pe1]; rfl, d2, by omega, q3⟩
      · rw [if_neg h1]
        by_cases h2 : splitVal < ((chk s).stk (chk s).exPt).pb.get axis
        · rw [if_pos h2]
          obtain ⟨q1, q2, d2, hd2, q3⟩ :=
            ihr (chk s) (d + 1) hsc hokr (hch.mono (by omega)) hen
          exact ⟨q1, q2, d2, by omega, q3⟩
        · rw [if_neg h2]
          obtain ⟨pb1, pe1, pc1⟩ :=
            pushFar_ok (chk s) ray axis splitVal
              ((splitVal - ray.origin.get axis) / ray.direction.get axis) l d
              hsc hch hen hd18 hokl
          obtain ⟨q1, q2, d2, hd2, q3⟩ :=
            ihr _ (d + 1) pb1 hokr pc1 (by rw [pe1]; exact hen)
          exact ⟨q1, by rw [q2, pe1]; rfl, d2, by omega, q3⟩
lemma travLoop_ok (O : Oracle) (ray : Ray) :
    ∀ (fuel : Nat) (curr : Option TTree) (s : TravState),
      s.bad = false →
      (∀ t, curr = some t →
        ∃ dc, OkAt t dc ∧ ChainOk s.stk s.exPt dc ∧ s.enPt ≤ 39) →
      (travLoop O ray fuel curr s).1.bad = false := by
  intro fuel
  induction fuel with
  | zero =>
      intro curr s hbad _
      simp only [travLoop]
      exact hbad
  | succ fuel ih =>
      intro curr s hbad hinv
      match curr with
      | none =>
          simp only [travLoop]
          exact hbad
      | some tree =>
          obtain ⟨dc, hok, hch, hen⟩ := hinv tree rfl
          obtain ⟨db, de, d2, hd2, dch⟩ := descend_ok ray tree s dc hbad hok hch hen
          have hen1 : (descend ray tree s).1.enPt ≤ 39 := by rw [de]; exact hen
          have hex1 : (descend ray tree s).1.exPt ≤ 39 := dch.top_le
          have hs2bad : (chk (descend ray tree s).1).bad = false :=
            chk_bad _ db (by omega) (by omega)
          simp only [travLoop]
          split
          next occ heq => exact hs2bad
          next heq =>
              apply ih
              · exact hs2bad
              · intro t ht
                cases dch with
                | base _ _ hnode hle =>
                    have ht2 : ((descend ray tree s).1.stk
                        (descend ray tree s).1.exPt).node = some t := ht
                    rw [hnode] at ht2
                    cases ht2
                | step _ _ dt t0 hnode hdt h19 hok0 hprev hle tail =>
                    have ht2 : ((descend ray tree s).1.stk
                        (descend ray tree s).1.exPt).node = some t := ht
                    rw [hnode] at ht2
                    injection ht2 with ht2
                    subst ht2
                    exact ⟨dt, hok0, tail, hex1⟩

/-- C9: on any tree satisfying the build's depth bound (splitting nodes at
depth ≤ 18), the traversal's stack indices `enPt` and `exPt` stay within
the 50-entry bounds `[0, 49]` at every read and write, and a push never
overwrites a slot in use (the entry slot or a pending exit slot): the
instrumentation flag `bad`, which latches on any such violation, stays
`false` for every ray, box intersection, initial stack content and fuel. -/
theorem C9_stack_bounds (O : Oracle) (tree : TTree) (ray : Ray)
    (boxHit : Option (ℚ × ℚ)) (junk : Nat → StackElem) (fuel : Nat)
    (hok : OkAt tree 0) :
    (kdIntersect O tree ray boxHit junk fuel).1.bad = false := by
  rcases boxHit with _ | ⟨a, b⟩
  · rfl
  · simp only [kdIntersect]
    apply travLoop_ok
    · rfl
    · intro t ht
      injection ht with ht
      subst ht
      refine ⟨0, hok, ?_, by show (0 : Nat) ≤ 39; omega⟩
      refine ChainOk.base 1 0 ?_ (le_refl 1)
      simp

/-- Witness for `C9_stack_bounds`: the concrete one-leaf traversal of the
C4 scenario never trips the instrumentation. -/
theorem C9_stack_bounds_witness :
    (kdIntersect oTest c4tree c2ray (some (0, 10)) c4junk 5).1.bad = false :=
  C9_stack_bounds oTest c4tree c2ray (some (0, 10)) c4junk 5 trivial

end EmRt
